import Mathlib

/-!
Shallow embedding of the ch57x keyboard-tool protocol encoders
(`src/keyboard/k884x.rs` for device family A and `src/keyboard/k8890.rs`
for device family B).  Each `bind_key` call is modelled as a pure function
from `(layer, key, expansion)` to `Except BindError (List Frame)`: the
ordered list of frames handed to the transport primitive on success, or
the first error raised.  Bytes are natural numbers; Rust's `u8`/`u16`
truncating arithmetic is written explicitly with `% 256` / `% 65536`
where the source can wrap.
-/

namespace Ch57x

/-- A frame: one byte array passed to a single transport write. -/
abbrev Frame := List Nat

/-- Modelled from the spec: the error taxonomy of §7.  The module that
declares these conditions (`keyboard/mod.rs` plus the `anyhow` messages)
is not part of the provided sources; the names follow the spec. -/
inductive BindError where
  | invalidLayer
  | invalidKey
  | macroTooLong
  | unsupportedFeature
  | delayOutOfRange
  | missingButtons
  deriving DecidableEq, Repr

/-- Modelled from the spec: an `Accord` (§3) is a modifier bitmask plus an
optional key scan code; both are single bytes on the wire
(`modifiers.as_u8()`, `code.map_or(0, |c| c.value())`). -/
structure Accord where
  modifiers : Nat
  code : Option Nat
  deriving DecidableEq, Repr

/-- Modelled from the spec: `KeyboardPart` (§3) is
`{ Key(Accord), Delay(milliseconds) }`; the delay is a 16-bit count of
milliseconds (`ms.to_le_bytes()` yields two bytes in the source). -/
inductive KeyboardPart where
  | Key (accord : Accord)
  | Delay (ms : Nat)
  deriving DecidableEq, Repr

/-- Modelled from the spec: `MouseAction` (§3), with `Click` carrying a
button set rendered on the wire through `buttons.as_u8()`; the set is
modelled by that bitmask, empty iff the mask is 0. -/
inductive MouseAction where
  | Click (buttons : Nat)
  | WheelUp
  | WheelDown
  | Move (dx dy : Int)
  deriving DecidableEq, Repr

/-- Modelled from the spec: `MouseEvent = (MouseAction, optional modifier)`;
the modifier reaches the wire through `m as u8`, modelled by its byte. -/
structure MouseEvent where
  action : MouseAction
  modifier : Option Nat
  deriving DecidableEq, Repr

/-- Modelled from the spec: the `Macro` tagged union of §3
(`Keyboard` sequence / `Media` consumer code / `Mouse` event). -/
inductive Expansion where
  | Keyboard (presses : List KeyboardPart)
  | Media (code : Nat)
  | Mouse (event : MouseEvent)
  deriving DecidableEq, Repr

/-- Modelled from the spec: `kind()` (§3): 0 = keyboard, 1 =
mouse-click-style, 2 = media, 3 = mouse-wheel/move-style. -/
def Expansion.kind : Expansion → Nat
  | .Keyboard _ => 0
  | .Media _ => 2
  | .Mouse ⟨.Click _, _⟩ => 1
  | .Mouse ⟨.WheelUp, _⟩ => 3
  | .Mouse ⟨.WheelDown, _⟩ => 3
  | .Mouse ⟨.Move _ _, _⟩ => 3

/-- Modelled from the spec: `to_key_id(max)` (§3, §4.1).  A key is
modelled by its device-scoped ordinal; the mapping fails with
`InvalidKey` when the ordinal exceeds the family's ceiling. -/
def toKeyId (key : Nat) (max : Nat) : Except BindError Nat :=
  if key ≤ max then .ok key else .error .invalidKey

/-- `matches!(p, KeyboardPart::Key(_))` from both sources. -/
def KeyboardPart.isKey : KeyboardPart → Bool
  | .Key _ => true
  | .Delay _ => false

/-- The `(modifiers.as_u8(), code.map_or(0, |c| c.value()))` byte pair of
an accord. -/
def Accord.pair (a : Accord) : Nat × Nat :=
  (a.modifiers, a.code.getD 0)

/-- `modifier.map_or(0, |m| m as u8)` from both sources. -/
def modByte (modifier : Option Nat) : Nat :=
  modifier.getD 0

/-- `(x as u16).to_le_bytes()`: little-endian byte pair of a 16-bit value. -/
def leBytes16 (x : Nat) : Nat × Nat :=
  (x % 256, x / 256 % 256)

/-! ## Family A (`k884x.rs`, `Keyboard884x::bind_key`) -/

/-- The 10-byte header `[0x03, 0xfe, keyId, layer+1, kind, 0,0,0,0,0]`
built at `k884x.rs:20-31`. -/
def header884x (keyId layer kind : Nat) : Frame :=
  [0x03, 0xfe, keyId, layer + 1, kind, 0, 0, 0, 0, 0]

/-- The count of `Key` parts only (`k884x.rs:38`). -/
def keyCount (presses : List KeyboardPart) : Nat :=
  (presses.filter KeyboardPart.isKey).length

/-- The bytes a single part contributes to the family-A payload
(`k884x.rs:43-52`): two bytes per `Key`, nothing per `Delay`. -/
def partBytes : KeyboardPart → List Nat
  | .Key a => [a.pair.1, a.pair.2]
  | .Delay _ => []

/-- The kind-dependent extension appended to the family-A header
(`k884x.rs:33-68`), or the error raised while building it. -/
def ext884x (expansion : Expansion) : Except BindError (List Nat) :=
  match expansion with
  | .Keyboard presses =>
      if 18 < presses.length then .error .macroTooLong
      else .ok ([keyCount presses % 256] ++ (presses.map partBytes).flatten)
  | .Media code =>
      .ok [0, (leBytes16 code).1, (leBytes16 code).2, 0, 0, 0, 0]
  | .Mouse ⟨.Click buttons, _⟩ =>
      if buttons = 0 then .error .missingButtons
      else .ok [0x01, 0, buttons]
  | .Mouse ⟨.WheelUp, modifier⟩ =>
      .ok [0x03, modByte modifier, 0, 0, 0, 0x1]
  | .Mouse ⟨.WheelDown, modifier⟩ =>
      .ok [0x03, modByte modifier, 0, 0, 0, 0xff]
  | .Mouse ⟨.Move _ _, _⟩ =>
      -- Modelled from the spec: `Move{dx, dy}` is "family B only" (§3); the
      -- family-A source has no arm for it, so it is treated as unsupported.
      .error .unsupportedFeature

/-- The optional delay frame of family A (`k884x.rs:75-87`): when the
macro is `Keyboard` and its first part is `Delay(ms)`, a clone of the
main message with byte 4 set to `0x05` and bytes 5-6 the little-endian
`ms`; `DelayOutOfRange` when `ms > 6000`. -/
def delay884x (expansion : Expansion) (msg : Frame) :
    Except BindError (List Frame) :=
  match expansion with
  | .Keyboard parts =>
      match parts.head? with
      | some (.Delay ms) =>
          if 6000 < ms then .error .delayOutOfRange
          else .ok [((msg.set 4 0x05).set 5 (leBytes16 ms).1).set 6
                        (leBytes16 ms).2]
      | _ => .ok []
  | _ => .ok []

/-- The three fixed finish frames of family A (`k884x.rs:90-92`); family B
sends only the first of them (`k8890.rs:74`). -/
def finishA1 : Frame := [0x03, 0xaa, 0xaa, 0, 0, 0, 0, 0, 0]

/-- Second family-A finish frame (`k884x.rs:91`). -/
def finishA2 : Frame := [0x03, 0xfd, 0xfe, 0xff]

/-- The full main message of the family-A keyboard branch: the 10-byte
header, the `Key`-only count byte, then the per-`Key` byte pairs
(`k884x.rs:20-52`). -/
def kbMsg884x (key layer : Nat) (presses : List KeyboardPart) : Frame :=
  header884x key layer 0 ++ [keyCount presses % 256] ++
    (presses.map partBytes).flatten

/-- `Keyboard884x::bind_key` (`k884x.rs:15-95`), as the ordered list of
frames sent on success.  Each `match` on an `Except` models a Rust `?`
early return. -/
def bindKey884x (layer key : Nat) (expansion : Expansion) :
    Except BindError (List Frame) :=
  if 15 < layer then .error .invalidLayer
  else
    match toKeyId key 15 with
    | .error e => .error e
    | .ok keyId =>
      match ext884x expansion with
      | .error e => .error e
      | .ok ext =>
        let msg := header884x keyId layer expansion.kind ++ ext
        match delay884x expansion msg with
        | .error e => .error e
        | .ok delayFrames =>
            .ok ([msg] ++ delayFrames ++ [finishA1, finishA2, finishA1])

/-! ## Family B (`k8890.rs`, `Keyboard8890::bind_key`) -/

/-- Byte 2 of the family-B per-element, media and mouse frames:
`((layer + 1) << 4) | kind` in `u8` arithmetic (the shifted value is
truncated modulo 256 before the bitwise or). -/
def byte2 (layer kind : Nat) : Nat :=
  ((layer + 1) * 16 % 256) ||| kind

/-- The start frame `[0x03, 0xfe, layer+1, 0x1, 0x1, 0,0,0,0]`
(`k8890.rs:19`). -/
def startB (layer : Nat) : Frame :=
  [0x03, 0xfe, layer + 1, 0x1, 0x1, 0, 0, 0, 0]

/-- The `(modifiers, code)` pair extracted from a part in the family-B
element loop (`k8890.rs:31-34`); the `Delay` arm is the `_ => (0, 0)`
of the source (unreachable past the delay guard). -/
def partPair : KeyboardPart → Nat × Nat
  | .Key accord => accord.pair
  | .Delay _ => (0, 0)

/-- One per-element frame of the family-B keyboard branch
(`k8890.rs:37-47`). -/
def elemFrameB (keyId layer len i : Nat) (mc : Nat × Nat) : Frame :=
  [0x03, keyId, byte2 layer 0, len % 256, i % 256, mc.1, mc.2, 0, 0]

/-- The per-element frames of the family-B keyboard branch
(`k8890.rs:30-48`): the synthetic `(0, 0)` placeholder element followed
by the real elements, enumerated into one frame each. -/
def kbMid8890 (keyId layer : Nat) (presses : List KeyboardPart) :
    List Frame :=
  (((0, 0) :: presses.map partPair).enum).map fun ic =>
    elemFrameB keyId layer presses.length ic.1 ic.2

/-- The frames sent between the start and finish frames by
`Keyboard8890::bind_key` (`k8890.rs:21-71`), or the error raised there.
The length and delay guards of the keyboard branch run before any
`to_key_id` call, as in the source. -/
def mid8890 (layer key : Nat) (expansion : Expansion) :
    Except BindError (List Frame) :=
  match expansion with
  | .Keyboard presses =>
      if 5 < presses.length then .error .macroTooLong
      else if ¬ presses.all KeyboardPart.isKey then .error .unsupportedFeature
      else
        match toKeyId key 12 with
        | .error e => .error e
        | .ok keyId => .ok (kbMid8890 keyId layer presses)
  | .Media code =>
      match toKeyId key 12 with
      | .error e => .error e
      | .ok keyId =>
          .ok [[0x03, keyId, byte2 layer 0x02, (leBytes16 code).1,
                (leBytes16 code).2, 0, 0, 0, 0]]
  | .Mouse ⟨.Click buttons, modifier⟩ =>
      if buttons = 0 then .error .missingButtons
      else
        match toKeyId key 12 with
        | .error e => .error e
        | .ok keyId =>
            .ok [[0x03, keyId, byte2 layer 0x03, buttons, 0, 0, 0,
                  modByte modifier, 0]]
  | .Mouse ⟨.WheelUp, modifier⟩ =>
      match toKeyId key 12 with
      | .error e => .error e
      | .ok keyId =>
          .ok [[0x03, keyId, byte2 layer 0x03, 0, 0, 0, 0x01,
                modByte modifier, 0]]
  | .Mouse ⟨.WheelDown, modifier⟩ =>
      match toKeyId key 12 with
      | .error e => .error e
      | .ok keyId =>
          .ok [[0x03, keyId, byte2 layer 0x03, 0, 0, 0, 0xff,
                modByte modifier, 0]]
  | .Mouse ⟨.Move dx dy, modifier⟩ =>
      match toKeyId key 12 with
      | .error e => .error e
      | .ok keyId =>
          .ok [[0x03, keyId, byte2 layer 0x03, 0, ((dy % 256).toNat),
                ((dx % 256).toNat), 0, modByte modifier, 0]]

/-- `Keyboard8890::bind_key` (`k8890.rs:13-77`), as the ordered list of
frames sent on success: the start frame, the kind-dependent middle
frames, then the single finish frame. -/
def bindKey8890 (layer key : Nat) (expansion : Expansion) :
    Except BindError (List Frame) :=
  if 15 < layer then .error .invalidLayer
  else
    match mid8890 layer key expansion with
    | .error e => .error e
    | .ok mid => .ok ([startB layer] ++ mid ++ [finishA1])

/-- Equality of `Except` results is decidable, so concrete runs of the
encoders can be checked by `decide`. -/
instance {ε α : Type} [DecidableEq ε] [DecidableEq α] :
    DecidableEq (Except ε α) := fun a b =>
  match a, b with
  | .ok a, .ok b =>
      if h : a = b then .isTrue (by rw [h]) else .isFalse (by simpa using h)
  | .error a, .error b =>
      if h : a = b then .isTrue (by rw [h]) else .isFalse (by simpa using h)
  | .ok _, .error _ => .isFalse (by simp)
  | .error _, .ok _ => .isFalse (by simp)

/-! ## Claims -/

/-- C1: on family A, `bind_key(layer=0, key, Media 0x00E9)` succeeds and
sends exactly four frames in order: the 10-byte header
`[0x03, 0xFE, keyId, 1, 2, 0,0,0,0,0]` extended with
`[0, 0xE9, 0x00, 0,0,0,0]` (little-endian consumer code), then the three
fixed finish frames, with no delay frame. -/
theorem mediaExample884x (key : Nat) (h : key ≤ 15) :
    bindKey884x 0 key (.Media 0x00E9) =
      .ok [[0x03, 0xfe, key, 1, 2, 0, 0, 0, 0, 0, 0, 0xe9, 0x00, 0, 0, 0, 0],
           [0x03, 0xaa, 0xaa, 0, 0, 0, 0, 0, 0],
           [0x03, 0xfd, 0xfe, 0xff],
           [0x03, 0xaa, 0xaa, 0, 0, 0, 0, 0, 0]] := by
  simp [bindKey884x, toKeyId, h, ext884x, delay884x, header884x, finishA1,
        finishA2, leBytes16, Expansion.kind]

/-- Witness for C1 at `key = 2`. -/
theorem mediaExample884x_witness :
    bindKey884x 0 2 (.Media 0x00E9) =
      .ok [[0x03, 0xfe, 2, 1, 2, 0, 0, 0, 0, 0, 0, 0xe9, 0x00, 0, 0, 0, 0],
           [0x03, 0xaa, 0xaa, 0, 0, 0, 0, 0, 0],
           [0x03, 0xfd, 0xfe, 0xff],
           [0x03, 0xaa, 0xaa, 0, 0, 0, 0, 0, 0]] :=
  mediaExample884x 2 (by decide)

/-- C3: for both families and every layer in `0..=15`, the wire layer
byte is `layer + 1` (family A: byte 3 of the header frame; family B:
byte 2 of the start frame), and for `layer > 15` both `bind_key`s fail
with `InvalidLayer`. -/
theorem layerEncoding (layer key : Nat) (e : Expansion) :
    (layer ≤ 15 →
      (∀ frames, bindKey884x layer key e = .ok frames →
        ∃ keyId rest,
          frames.head? = some (0x03 :: 0xfe :: keyId :: (layer + 1) :: rest))
      ∧ (∀ frames, bindKey8890 layer key e = .ok frames →
        ∃ rest, frames.head? = some (0x03 :: 0xfe :: (layer + 1) :: rest))) ∧
    (15 < layer →
      bindKey884x layer key e = .error .invalidLayer ∧
      bindKey8890 layer key e = .error .invalidLayer) := by
  constructor
  · intro hl
    constructor
    · intro frames hok
      unfold bindKey884x at hok
      rw [if_neg (Nat.not_lt.mpr hl)] at hok
      rcases hk : toKeyId key 15 with e1 | keyId <;> rw [hk] at hok <;>
        dsimp only at hok
      · simp at hok
      rcases he : ext884x e with e2 | ext <;> rw [he] at hok <;>
        dsimp only at hok
      · simp at hok
      rcases hd : delay884x e (header884x keyId layer e.kind ++ ext)
          with e3 | d <;> rw [hd] at hok <;> dsimp only at hok
      · simp at hok
      simp only [Except.ok.injEq] at hok
      subst hok
      exact ⟨keyId, e.kind :: 0 :: 0 :: 0 :: 0 :: 0 :: ext,
             by simp [header884x]⟩
    · intro frames hok
      unfold bindKey8890 at hok
      rw [if_neg (Nat.not_lt.mpr hl)] at hok
      rcases hm : mid8890 layer key e with e1 | mid <;> rw [hm] at hok <;>
        dsimp only at hok
      · simp at hok
      simp only [Except.ok.injEq] at hok
      subst hok
      exact ⟨[0x1, 0x1, 0, 0, 0, 0], by simp [startB]⟩
  · intro hl
    constructor
    · unfold bindKey884x; rw [if_pos hl]
    · unfold bindKey8890; rw [if_pos hl]

/-- Witness for C3: the layer byte at `layer = 3` and the `InvalidLayer`
failures at `layer = 16`. -/
theorem layerEncoding_witness :
    (∃ keyId rest,
      (([([0x03, 0xfe, 1, 4, 2, 0, 0, 0, 0, 0, 0, 233, 0, 0, 0, 0, 0] :
          Frame), finishA1, finishA2, finishA1]).head? =
        some (0x03 :: 0xfe :: keyId :: 4 :: rest))) ∧
    bindKey884x 16 1 (.Media 233) = .error .invalidLayer ∧
    bindKey8890 16 1 (.Media 233) = .error .invalidLayer := by
  constructor
  · exact ((layerEncoding 3 1 (.Media 233)).1 (by decide)).1 _ (by decide)
  · exact (layerEncoding 16 1 (.Media 233)).2 (by decide)

/-- C4: on family A, for a keyboard macro whose first element is
`Delay(ms)` (with valid layer, key and length), `bind_key` fails with
`DelayOutOfRange` iff `ms > 6000`; otherwise it sends, between the header
frame and the finish frames, a second frame equal to the header frame
with byte 4 set to `0x05` and bytes 5-6 the little-endian `ms`. -/
theorem delayFrame884x (layer key ms : Nat) (presses : List KeyboardPart)
    (h1 : layer ≤ 15) (h2 : key ≤ 15) (h3 : presses.length ≤ 18)
    (h4 : presses.head? = some (.Delay ms)) :
    (bindKey884x layer key (.Keyboard presses) =
        .error .delayOutOfRange ↔ 6000 < ms)
    ∧ (ms ≤ 6000 →
        bindKey884x layer key (.Keyboard presses) =
          .ok [kbMsg884x key layer presses,
               (((kbMsg884x key layer presses).set 4 0x05).set 5
                  (ms % 256)).set 6 (ms / 256 % 256),
               finishA1, finishA2, finishA1]) := by
  have hres : bindKey884x layer key (.Keyboard presses) =
      if 6000 < ms then .error .delayOutOfRange
      else .ok [kbMsg884x key layer presses,
                (((kbMsg884x key layer presses).set 4 0x05).set 5
                   (ms % 256)).set 6 (ms / 256 % 256),
                finishA1, finishA2, finishA1] := by
    unfold bindKey884x
    rw [if_neg (Nat.not_lt.mpr h1)]
    unfold toKeyId
    rw [if_pos h2]
    dsimp only
    unfold ext884x
    dsimp only
    rw [if_neg (Nat.not_lt.mpr h3)]
    dsimp only
    unfold delay884x
    dsimp only
    rw [h4]
    dsimp only
    by_cases hms : 6000 < ms
    · rw [if_pos hms, if_pos hms]
    · rw [if_neg hms, if_neg hms]
      dsimp only
      simp [kbMsg884x, header884x, Expansion.kind, leBytes16]
  constructor
  · rw [hres]
    by_cases hms : 6000 < ms <;> simp [hms]
  · intro hms
    rw [hres, if_neg (Nat.not_lt.mpr hms)]

/-- Witness for C4: `Delay(6001)` fails, `Delay(6000)` succeeds with the
delay frame. -/
theorem delayFrame884x_witness :
    (bindKey884x 0 1 (.Keyboard [.Delay 6001]) =
        .error .delayOutOfRange ↔ 6000 < 6001) ∧
    bindKey884x 0 1 (.Keyboard [.Delay 6000]) =
      .ok [kbMsg884x 1 0 [.Delay 6000],
           (((kbMsg884x 1 0 [.Delay 6000]).set 4 0x05).set 5
              (6000 % 256)).set 6 (6000 / 256 % 256),
           finishA1, finishA2, finishA1] := by
  constructor
  · exact (delayFrame884x 0 1 6001 [.Delay 6001] (by decide) (by decide)
      (by decide) (by decide)).1
  · exact (delayFrame884x 0 1 6000 [.Delay 6000] (by decide) (by decide)
      (by decide) (by decide)).2 (by decide)

/-- Auxiliary: per-part payload bytes equal the flattened two-byte lists
of the `Key` parts alone (`Delay` parts contribute nothing). -/
lemma partBytes_filterMap_eq (presses : List KeyboardPart) :
    (presses.map partBytes).flatten =
      (presses.filterMap (fun p => match p with
         | KeyboardPart.Key a => some [a.modifiers, a.code.getD 0]
         | KeyboardPart.Delay _ => none)).flatten := by
  induction presses with
  | nil => rfl
  | cons p t ih => cases p <;> simp [partBytes, Accord.pair, ih]

/-- C5: on family A, the byte after the 10-byte header of a successful
keyboard `bind_key` equals the count of `Key` elements only, and the
payload that follows is exactly the two bytes `(modifier, code)` of each
`Key` element in order, with `Delay` elements contributing nothing. -/
theorem keyCountPayload884x (layer key : Nat) (presses : List KeyboardPart)
    (frames : List Frame)
    (hok : bindKey884x layer key (.Keyboard presses) = .ok frames) :
    frames.head? = some (header884x key layer 0 ++
      [(presses.filter KeyboardPart.isKey).length] ++
      (presses.filterMap (fun p => match p with
         | KeyboardPart.Key a => some [a.modifiers, a.code.getD 0]
         | KeyboardPart.Delay _ => none)).flatten) := by
  unfold bindKey884x at hok
  split at hok
  · simp at hok
  rcases hk : toKeyId key 15 with e1 | keyId <;> rw [hk] at hok <;>
    dsimp only at hok
  · simp at hok
  have hkey : keyId = key := by
    unfold toKeyId at hk
    split at hk
    · simpa using hk.symm
    · simp at hk
  subst hkey
  rcases he : ext884x (.Keyboard presses) with e2 | ext <;> rw [he] at hok <;>
    dsimp only at hok
  · simp at hok
  unfold ext884x at he
  dsimp only at he
  split at he
  · simp at he
  rename_i hlen
  simp only [Except.ok.injEq] at he
  subst he
  rcases hd : delay884x (.Keyboard presses) _ with e3 | d <;> rw [hd] at hok <;>
    dsimp only at hok
  · simp at hok
  simp only [Except.ok.injEq] at hok
  subst hok
  have hlt : (List.filter KeyboardPart.isKey presses).length < 256 := by
    have := List.length_filter_le KeyboardPart.isKey presses
    omega
  simp [header884x, Expansion.kind, keyCount, Nat.mod_eq_of_lt hlt,
        partBytes_filterMap_eq]

/-- Witness for C5: a macro with a leading delay and one key press has
count byte 1 and a two-byte payload. -/
theorem keyCountPayload884x_witness :
    ([([0x03, 0xfe, 1, 1, 0, 0, 0, 0, 0, 0, 1, 2, 4] : Frame),
      ([0x03, 0xfe, 1, 1, 5, 5, 0, 0, 0, 0, 1, 2, 4] : Frame), finishA1,
      finishA2, finishA1] : List Frame).head? =
      some (header884x 1 0 0 ++
        [([KeyboardPart.Delay 5, KeyboardPart.Key ⟨2, some 4⟩].filter
            KeyboardPart.isKey).length] ++
        (([KeyboardPart.Delay 5, KeyboardPart.Key ⟨2, some 4⟩]).filterMap
          (fun p => match p with
            | KeyboardPart.Key a => some [a.modifiers, a.code.getD 0]
            | KeyboardPart.Delay _ => none)).flatten) :=
  keyCountPayload884x 0 1 [KeyboardPart.Delay 5, KeyboardPart.Key ⟨2, some 4⟩]
    _ (by decide)

/-- Auxiliary: the only error `delay884x` raises is `DelayOutOfRange`. -/
lemma delay884x_error_eq (e : Expansion) (msg : Frame) (er : BindError)
    (h : delay884x e msg = .error er) : er = .delayOutOfRange := by
  unfold delay884x at h
  cases e with
  | Keyboard parts =>
      dsimp only at h
      rcases hp : parts.head? with _ | p <;> rw [hp] at h
      · simp at h
      · cases p with
        | Key a => simp at h
        | Delay ms =>
            dsimp only at h
            split at h
            · simpa using h.symm
            · simp at h
  | Media c => simp [delay884x] at h
  | Mouse ev => rcases ev with ⟨a, m⟩; cases a <;> simp [delay884x] at h

/-- C6: on family A, a keyboard macro of more than 18 presses fails with
`MacroTooLong`, and one of exactly 18 presses never fails with
`MacroTooLong`. -/
theorem lengthLimit884x (layer key : Nat) (presses : List KeyboardPart)
    (h1 : layer ≤ 15) (h2 : key ≤ 15) :
    (18 < presses.length →
      bindKey884x layer key (.Keyboard presses) = .error .macroTooLong)
    ∧ (presses.length = 18 →
      bindKey884x layer key (.Keyboard presses) ≠ .error .macroTooLong) := by
  constructor
  · intro hlen
    unfold bindKey884x
    rw [if_neg (Nat.not_lt.mpr h1)]
    unfold toKeyId
    rw [if_pos h2]
    dsimp only
    unfold ext884x
    dsimp only
    rw [if_pos hlen]
  · intro hlen
    unfold bindKey884x
    rw [if_neg (Nat.not_lt.mpr h1)]
    unfold toKeyId
    rw [if_pos h2]
    dsimp only
    unfold ext884x
    dsimp only
    rw [if_neg (by omega)]
    dsimp only
    rcases hd : delay884x (.Keyboard presses) _ with e3 | d <;> dsimp only
    · have := delay884x_error_eq _ _ _ hd
      subst this
      simp
    · simp

/-- Witness for C6: 19 presses fail, 18 presses do not fail with
`MacroTooLong`. -/
theorem lengthLimit884x_witness :
    bindKey884x 0 1 (.Keyboard (List.replicate 19 (.Key ⟨0, none⟩))) =
        .error .macroTooLong ∧
    bindKey884x 0 1 (.Keyboard (List.replicate 18 (.Key ⟨0, none⟩))) ≠
        .error .macroTooLong := by
  constructor
  · exact (lengthLimit884x 0 1 _ (by decide) (by decide)).1 (by decide)
  · exact (lengthLimit884x 0 1 _ (by decide) (by decide)).2 (by decide)

/-- C8: on family B, `Mouse Move{dx, dy}` encodes `dx` and `dy` as
two's-complement low bytes and places the `dy` byte (index 4) before the
`dx` byte (index 5) in the single middle frame. -/
theorem mouseMove8890 (layer key : Nat) (dx dy : Int)
    (modifier : Option Nat) (h1 : layer ≤ 15) (h2 : key ≤ 12) :
    bindKey8890 layer key (.Mouse ⟨.Move dx dy, modifier⟩) =
      .ok [startB layer,
           [0x03, key, byte2 layer 0x03, 0, (dy % 256).toNat,
            (dx % 256).toNat, 0, modByte modifier, 0],
           finishA1] := by
  simp [bindKey8890, mid8890, toKeyId, h2, Nat.not_lt.mpr h1]

/-- Witness for C8 at `dx = -1, dy = 0` (byte 5 becomes `0xFF`) and with
the `dx = 127` wrap checked through the same frame shape. -/
theorem mouseMove8890_witness :
    bindKey8890 0 1 (.Mouse ⟨.Move (-1) 0, none⟩) =
      .ok [startB 0,
           [0x03, 1, byte2 0 0x03, 0, 0x00, 0xff, 0, modByte none, 0],
           finishA1] := by
  have h := mouseMove8890 0 1 (-1) 0 none (by decide) (by decide)
  simpa using h

/-- C2: on family B, a keyboard macro of `k` `Key` elements (`1 ≤ k ≤ 5`,
no `Delay`) sends exactly `k + 1` per-element frames between the start
and finish frames: a synthetic `(0, 0)` placeholder first, then the real
elements in order; the frame at stream position `i` is
`[0x03, keyId, ((layer+1)<<4)|0, k, i, modifier, code, 0, 0]` with byte 3
equal to `k`, the count of real elements. -/
theorem keyboardStream8890 (layer key : Nat) (presses : List KeyboardPart)
    (h1 : layer ≤ 15) (h2 : key ≤ 12) (hlen1 : 1 ≤ presses.length)
    (hlen5 : presses.length ≤ 5)
    (hkeys : presses.all KeyboardPart.isKey = true) :
    bindKey8890 layer key (.Keyboard presses) =
      .ok ([startB layer] ++ kbMid8890 key layer presses ++ [finishA1]) ∧
    (kbMid8890 key layer presses).length = presses.length + 1 ∧
    ∀ i, i < presses.length + 1 →
      (kbMid8890 key layer presses).getD i [] =
        [0x03, key, byte2 layer 0, presses.length, i,
         (((0, 0) :: presses.map partPair).getD i (0, 0)).1,
         (((0, 0) :: presses.map partPair).getD i (0, 0)).2, 0, 0] := by
  refine ⟨?_, ?_, ?_⟩
  · simp [bindKey8890, mid8890, toKeyId, h2, Nat.not_lt.mpr h1,
          Nat.not_lt.mpr hlen5, hkeys]
  · simp [kbMid8890]
  · intro i hi
    have hi' : i < ((0, 0) :: presses.map partPair).length := by simpa using hi
    have himap : i < (kbMid8890 key layer presses).length := by
      simp [kbMid8890]
      simpa using hi
    rw [List.getD_eq_getElem _ _ himap, List.getD_eq_getElem _ _ hi']
    unfold kbMid8890
    rw [List.getElem_map _]
    rw [List.getElem_enum]
    simp [elemFrameB, Nat.mod_eq_of_lt (show presses.length < 256 by omega),
          Nat.mod_eq_of_lt (show i < 256 by omega)]

/-- Witness for C2: a two-press macro sends three per-element frames. -/
theorem keyboardStream8890_witness :
    bindKey8890 0 1 (.Keyboard [.Key ⟨2, some 4⟩, .Key ⟨0, some 5⟩]) =
      .ok ([startB 0] ++
        kbMid8890 1 0 [.Key ⟨2, some 4⟩, .Key ⟨0, some 5⟩] ++ [finishA1]) :=
  (keyboardStream8890 0 1 [.Key ⟨2, some 4⟩, .Key ⟨0, some 5⟩] (by decide)
    (by decide) (by decide) (by decide) (by decide)).1

/-- C7: on family B, a keyboard macro of more than 5 presses fails with
`MacroTooLong`, and one within the limit containing a `Delay` at any
position fails with `UnsupportedFeature`. -/
theorem keyboardErrors8890 (layer key : Nat) (presses : List KeyboardPart)
    (h1 : layer ≤ 15) :
    (5 < presses.length →
      bindKey8890 layer key (.Keyboard presses) = .error .macroTooLong)
    ∧ (presses.length ≤ 5 → ∀ ms, KeyboardPart.Delay ms ∈ presses →
      bindKey8890 layer key (.Keyboard presses) =
        .error .unsupportedFeature) := by
  constructor
  · intro hlen
    unfold bindKey8890
    rw [if_neg (Nat.not_lt.mpr h1)]
    unfold mid8890
    dsimp only
    rw [if_pos hlen]
  · intro hlen ms hmem
    have hall : presses.all KeyboardPart.isKey = false := by
      rw [List.all_eq_false]
      exact ⟨_, hmem, by simp [KeyboardPart.isKey]⟩
    unfold bindKey8890
    rw [if_neg (Nat.not_lt.mpr h1)]
    unfold mid8890
    dsimp only
    rw [if_neg (by omega)]
    rw [if_pos (by simp [hall])]

/-- Witness for C7: six presses fail `MacroTooLong`; a trailing (not
leading) delay fails `UnsupportedFeature`. -/
theorem keyboardErrors8890_witness :
    bindKey8890 0 1 (.Keyboard (List.replicate 6 (.Key ⟨0, none⟩))) =
        .error .macroTooLong ∧
    bindKey8890 0 1 (.Keyboard [.Key ⟨0, none⟩, .Delay 7]) =
        .error .unsupportedFeature := by
  constructor
  · exact (keyboardErrors8890 0 1 _ (by decide)).1 (by decide)
  · exact (keyboardErrors8890 0 1 [.Key ⟨0, none⟩, .Delay 7]
      (by decide)).2 (by decide) 7 (by decide)

/-- C9, counterexample: the claim that every frame is 8-10 bytes long is
false: on family A, `bind_key(0, key 1, Media 233)` succeeds, its main
frame has 17 bytes and its second finish frame has 4 bytes. -/
theorem frameLengths_counterexample :
    bindKey884x 0 1 (.Media 233) =
      .ok [[3, 254, 1, 1, 2, 0, 0, 0, 0, 0, 0, 233, 0, 0, 0, 0, 0],
           [3, 170, 170, 0, 0, 0, 0, 0, 0],
           [3, 253, 254, 255],
           [3, 170, 170, 0, 0, 0, 0, 0, 0]] ∧
    ([3, 253, 254, 255] : Frame).length = 4 ∧
    (([3, 254, 1, 1, 2, 0, 0, 0, 0, 0, 0, 233, 0, 0, 0, 0, 0] :
        Frame)).length = 17 := by
  refine ⟨by decide, by decide, by decide⟩

/-- Auxiliary: a part contributes at most two payload bytes. -/
lemma partBytes_length_le (p : KeyboardPart) : (partBytes p).length ≤ 2 := by
  cases p <;> simp [partBytes]

/-- Auxiliary: the family-A keyboard payload has at most two bytes per
press. -/
lemma flatten_partBytes_le (presses : List KeyboardPart) :
    ((presses.map partBytes).flatten).length ≤ 2 * presses.length := by
  induction presses with
  | nil => simp
  | cons p t ih =>
      have := partBytes_length_le p
      simp only [List.map_cons, List.flatten_cons, List.length_append,
                 List.length_cons]
      omega

/-- Auxiliary: every successful family-A header extension has at most 37
bytes (keyboard: one count byte plus two bytes for each of at most 18
presses). -/
lemma ext884x_ok_length (e : Expansion) (ext : List Nat)
    (h : ext884x e = .ok ext) : ext.length ≤ 37 := by
  unfold ext884x at h
  cases e with
  | Keyboard presses =>
      dsimp only at h
      split at h
      · simp at h
      · rename_i hlen
        simp only [Except.ok.injEq] at h
        subst h
        have := flatten_partBytes_le presses
        simp only [List.length_append, List.length_cons, List.length_nil]
        omega
  | Media c =>
      simp only [Except.ok.injEq] at h
      subst h
      simp
  | Mouse ev =>
      rcases ev with ⟨a, m⟩
      cases a <;> dsimp only at h
      · split at h
        · simp at h
        · simp only [Except.ok.injEq] at h
          subst h
          simp
      · simp only [Except.ok.injEq] at h
        subst h
        simp
      · simp only [Except.ok.injEq] at h
        subst h
        simp
      · simp at h

/-- Auxiliary: every delay frame has the same length as the main
message it clones. -/
lemma delay884x_ok_length (e : Expansion) (msg : Frame) (d : List Frame)
    (h : delay884x e msg = .ok d) : ∀ f ∈ d, f.length = msg.length := by
  unfold delay884x at h
  cases e with
  | Keyboard parts =>
      dsimp only at h
      rcases hp : parts.head? with _ | p <;> rw [hp] at h
      · simp only [Except.ok.injEq] at h
        subst h
        simp
      · cases p with
        | Key a =>
            simp only [Except.ok.injEq] at h
            subst h
            simp
        | Delay ms =>
            dsimp only at h
            split at h
            · simp at h
            · simp only [Except.ok.injEq] at h
              subst h
              intro f hf
              simp only [List.mem_singleton] at hf
              subst hf
              simp
  | Media c =>
      simp only [delay884x, Except.ok.injEq] at h
      subst h
      simp
  | Mouse ev =>
      rcases ev with ⟨a, m⟩
      cases a <;> simp only [delay884x, Except.ok.injEq] at h <;> subst h <;>
        simp

/-- Auxiliary: every family-B middle frame has exactly 9 bytes. -/
lemma mid8890_ok_length (layer key : Nat) (e : Expansion) (mid : List Frame)
    (h : mid8890 layer key e = .ok mid) : ∀ f ∈ mid, f.length = 9 := by
  unfold mid8890 at h
  cases e with
  | Keyboard presses =>
      dsimp only at h
      split at h
      · simp at h
      split at h
      · simp at h
      rcases hk : toKeyId key 12 with e1 | keyId <;> rw [hk] at h <;>
        dsimp only at h
      · simp at h
      simp only [Except.ok.injEq] at h
      subst h
      intro f hf
      simp only [kbMid8890, List.mem_map] at hf
      obtain ⟨ic, _, rfl⟩ := hf
      simp [elemFrameB]
  | Media c =>
      rcases hk : toKeyId key 12 with e1 | keyId <;> rw [hk] at h <;>
        dsimp only at h
      · simp at h
      simp only [Except.ok.injEq] at h
      subst h
      simp
  | Mouse ev =>
      rcases ev with ⟨a, m⟩
      cases a <;> dsimp only at h
      · split at h
        · simp at h
        rcases hk : toKeyId key 12 with e1 | keyId <;> rw [hk] at h <;>
          dsimp only at h
        · simp at h
        simp only [Except.ok.injEq] at h
        subst h
        simp
      all_goals
        rcases hk : toKeyId key 12 with e1 | keyId <;> rw [hk] at h <;>
          dsimp only at h
      · simp at h
      · simp only [Except.ok.injEq] at h
        subst h
        simp
      · simp at h
      · simp only [Except.ok.injEq] at h
        subst h
        simp
      · simp at h
      · simp only [Except.ok.injEq] at h
        subst h
        simp

/-- C9, amended: every frame a successful family-A `bind_key` sends has
between 4 and 47 bytes (10-byte header plus an extension of at most 37
bytes; finish frames of 9, 4 and 9 bytes); every frame a successful
family-B `bind_key` sends has exactly 9 bytes. -/
theorem frameLengths_amended (layer key : Nat) (e : Expansion)
    (frames : List Frame) :
    (bindKey884x layer key e = .ok frames →
      ∀ f ∈ frames, 4 ≤ f.length ∧ f.length ≤ 47)
    ∧ (bindKey8890 layer key e = .ok frames →
      ∀ f ∈ frames, f.length = 9) := by
  constructor
  · intro hok f hf
    unfold bindKey884x at hok
    split at hok
    · simp at hok
    rcases hk : toKeyId key 15 with e1 | keyId <;> rw [hk] at hok <;>
      dsimp only at hok
    · simp at hok
    rcases he : ext884x e with e2 | ext <;> rw [he] at hok <;>
      dsimp only at hok
    · simp at hok
    rcases hd : delay884x e (header884x keyId layer e.kind ++ ext)
        with e3 | d <;> rw [hd] at hok <;> dsimp only at hok
    · simp at hok
    simp only [Except.ok.injEq] at hok
    subst hok
    have hext := ext884x_ok_length e ext he
    have hmsg : (header884x keyId layer e.kind ++ ext).length =
        10 + ext.length := by
      simp [header884x]
      omega
    have hdel := delay884x_ok_length e _ d hd
    simp at hf
    rcases hf with rfl | hf | rfl | rfl | rfl
    · omega
    · have := hdel f hf
      omega
    · simp [finishA1]
    · simp [finishA2]
    · simp [finishA1]
  · intro hok f hf
    unfold bindKey8890 at hok
    split at hok
    · simp at hok
    rcases hm : mid8890 layer key e with e1 | mid <;> rw [hm] at hok <;>
      dsimp only at hok
    · simp at hok
    simp only [Except.ok.injEq] at hok
    subst hok
    have hmid := mid8890_ok_length layer key e mid hm
    simp at hf
    rcases hf with rfl | hf | rfl
    · simp [startB]
    · exact hmid f hf
    · simp [finishA1]

/-- Witness for the amended C9 on concrete successful runs of both
encoders. -/
theorem frameLengths_amended_witness :
    (4 ≤ ([3, 253, 254, 255] : Frame).length ∧
      ([3, 253, 254, 255] : Frame).length ≤ 47) ∧
    (startB 0).length = 9 := by
  constructor
  · exact (frameLengths_amended 0 1 (.Media 233) [[3, 254, 1, 1, 2, 0, 0, 0,
      0, 0, 0, 233, 0, 0, 0, 0, 0], [3, 170, 170, 0, 0, 0, 0, 0, 0],
      [3, 253, 254, 255], [3, 170, 170, 0, 0, 0, 0, 0, 0]]).1 (by decide)
      [3, 253, 254, 255] (by decide)
  · exact (frameLengths_amended 0 1 (.Media 233) [startB 0,
      [3, 1, 18, 233, 0, 0, 0, 0, 0], finishA1]).2 (by decide) (startB 0)
      (by decide)

/-- C10: byte 2 of the family-B keyed frames is
`((layer+1) << 4) | kind` in 8-bit arithmetic, i.e.
`(((layer+1) mod 16) << 4) | kind`; at `layer = 15` the shift wraps to 0
and the byte is the kind nibble alone, as the media frame shows. -/
theorem byteTwoWrap8890 (layer : Nat) :
    (∀ kind, byte2 layer kind = (layer + 1) % 16 * 16 ||| kind)
    ∧ (layer = 15 → ∀ kind, byte2 layer kind = kind)
    ∧ (∀ key c, layer ≤ 15 → key ≤ 12 →
        bindKey8890 layer key (.Media c) =
          .ok [startB layer,
               [0x03, key, (layer + 1) % 16 * 16 ||| 0x02, c % 256,
                c / 256 % 256, 0, 0, 0, 0],
               finishA1]) := by
  have hmod : (layer + 1) * 16 % 256 = (layer + 1) % 16 * 16 := by omega
  refine ⟨?_, ?_, ?_⟩
  · intro kind
    unfold byte2
    rw [hmod]
  · intro h15 kind
    subst h15
    unfold byte2
    norm_num
  · intro key c hl hk
    simp [bindKey8890, mid8890, toKeyId, hk, Nat.not_lt.mpr hl, byte2,
          leBytes16, hmod]

/-- Witness for C10 at `layer = 7` and at the wrapping `layer = 15`. -/
theorem byteTwoWrap8890_witness :
    byte2 7 3 = (7 + 1) % 16 * 16 ||| 3 ∧
    byte2 15 3 = 3 ∧
    bindKey8890 15 1 (.Media 0xE9) =
      .ok [startB 15,
           [0x03, 1, (15 + 1) % 16 * 16 ||| 0x02, 0xE9, 0, 0, 0, 0, 0],
           finishA1] := by
  refine ⟨(byteTwoWrap8890 7).1 3, (byteTwoWrap8890 15).2.1 (by decide) 3, ?_⟩
  have h := (byteTwoWrap8890 15).2.2 1 0xE9 (by decide) (by decide)
  simpa using h

end Ch57x
